import Mathlib

/-! dnsping: probe names, domain-list loading, probing rounds and the statistics store

A shallow embedding of `src/dnsping.cpp` (and of the loader loop it shares with
`src/querydb.cpp`).  Strings are `String`/`List Char`, the input file is the list of
its characters, the round counter and the count option are integers, the `int`
counter `probes` wraps as a 32-bit integer, and the database behind
`mysqlpp::Connection` is a pair of row lists (the `timeseries` and `stats` tables)
driven by the statements the program builds.
-/

namespace DnsPing

/-! ## `probe`: the query name (dnsping.cpp, lines 66-75) -/

/-- The `static string charset` of `probe`. -/
def charset : List Char :=
  "abcdefghijklmnopqrstuvwxyzABCDEFGHIJKLMNOPQRSTUVWXYZ1234567890".toList

/-- The call `name.append(str, pos, n)` of `std::string`: it throws `out_of_range`
(here `none`) when `pos > str.size()`, and otherwise appends the at most `n`
characters of `str` that start at `pos`. -/
def appendSub (name str : List Char) (pos n : Nat) : Option (List Char) :=
  if pos > str.length then none else some (name ++ (str.drop pos).take n)

/-- The loop `for (int i=0; i<length; i++) name.append(charset, rand()%charset.length(), 1)`.
The first argument is `length - i`; `call` is the number of `rand()` calls made so
far, and `rand call` is the value the next call returns. -/
def labelLoop (rand : Nat → Nat) : Nat → Nat → List Char → Option (List Char)
  | 0, _, name => some name
  | k + 1, call, name =>
    match appendSub name charset (rand call % charset.length) 1 with
    | none => none
    | some name1 => labelLoop rand k (call + 1) name1

/-- The random label: `int length=6+rand()%7` followed by the loop, on the empty `name`. -/
def randomLabel (rand : Nat → Nat) : Option (List Char) :=
  labelLoop rand (6 + rand 0 % 7) 1 []

/-- The string `name` that `probe` queries for: the label, then `name.append(".")`
and `name.append(domain)`. -/
def queryName (rand : Nat → Nat) (domain : String) : Option String :=
  match randomLabel rand with
  | none => none
  | some label => some (String.mk ((label ++ ".".toList) ++ domain.toList))

/-! ## The domain-list loader (dnsping.cpp, lines 322-349; querydb.cpp, lines 121-137) -/

/-- The part of a `std::ifstream` the loader depends on: the characters not yet
extracted and the two state bits that `eof()` and the `getline` sentry look at. -/
structure IStream where
  buf : List Char
  eofbit : Bool
  failbit : Bool
  deriving DecidableEq, Repr

/-- The stream member `good()`. -/
def IStream.good (s : IStream) : Bool := !s.eofbit && !s.failbit

/-- The extraction loop of `std::getline`: characters are taken until the delimiter
(which is extracted and dropped: third component `true`) or until the input ends
(third component `false`).  Result: the characters stored, the rest of the
input, and whether the delimiter was met. -/
def extractUntil (delim : Char) : List Char → List Char × List Char × Bool
  | [] => ([], [], false)
  | c :: cs =>
    if c = delim then ([], cs, true)
    else
      let r := extractUntil delim cs
      (c :: r.1, r.2.1, r.2.2)

/-- The call `getline(stream, str, delim)`.  When the stream is not `good()` the
sentry sets `failbit` and `str` keeps its old value.  Otherwise `str` is erased and
filled; meeting the end of the input sets `eofbit`, and `failbit` as well when
nothing at all was extracted. -/
def getline (s : IStream) (str : String) (delim : Char) : IStream × String :=
  if s.good then
    let r := extractUntil delim s.buf
    if r.2.2 then ({ s with buf := r.2.1 }, String.mk r.1)
    else ({ buf := r.2.1, eofbit := true, failbit := s.failbit || r.1.isEmpty }, String.mk r.1)
  else ({ s with failbit := true }, str)

/-- The loop `while (!domainsFile.eof() && domainsNum<topN)` with its two `getline`
calls.  The first argument is `topN - domainsNum`; `acc` holds the slots
`domains[0..domainsNum)` written so far, and the slot written next starts as the
empty string that `new string[topN]` put there. -/
def readLoop : Nat → IStream → String → List String → IStream × List String
  | 0, s, _, acc => (s, acc)
  | k + 1, s, rank, acc =>
    if s.eofbit then (s, acc)
    else
      let r1 := getline s rank ','
      let r2 := getline r1.1 "" '\n'
      readLoop k r2.1 r1.2 (acc ++ [r2.2])

/-- What the loader leaves behind: `domainsNum`, the filled slots of `domains`,
whether the "found only" warning is printed and whether `exit(1)` is taken. -/
structure LoadResult where
  domainsNum : Nat
  domains : List String
  warning : Bool
  exits : Bool
  deriving DecidableEq, Repr

/-- The statement `if (topN<=0) topN=10;`. -/
def effectiveTopN (topN : Int) : Nat := if topN ≤ 0 then 10 else topN.toNat

/-- The loader of `main`, for a file that could be opened and has the given contents. -/
def loadDomains (topN : Int) (file : List Char) : LoadResult :=
  let n := effectiveTopN topN
  let r := readLoop n { buf := file, eofbit := false, failbit := false } "" []
  { domainsNum := r.2.length
    domains := r.2
    warning := decide (r.2.length < n)
    exits := decide (r.2.length = 0) }

/-- A well-formed line `rank,name`: no comma in the rank, no line break in either field. -/
def WellFormedEntry (e : List Char × List Char) : Prop :=
  ',' ∉ e.1 ∧ '\n' ∉ e.1 ∧ '\n' ∉ e.2

/-- The text of a file with the given `(rank, name)` lines; the last line ends in a
line break exactly when `finalNewline` is set. -/
def renderFile : List (List Char × List Char) → Bool → List Char
  | [], _ => []
  | e :: es, finalNewline =>
    e.1 ++ ',' :: (e.2 ++
      (match es with
       | [] => if finalNewline then ['\n'] else []
       | _ :: _ => '\n' :: renderFile es finalNewline))

/-- The names of the lines, as the strings the loader stores. -/
def namesOf (entries : List (List Char × List Char)) : List String :=
  entries.map (fun e => String.mk e.2)

/-! ## The store behind `mysqlpp::Connection` (schema: dnsping.cpp, lines 125-160)

The database is the pair of its two tables, as `create_tables` leaves them.  Every
statement of the program is text into which the domain name is pasted between two
double quotes, so what a statement does depends on what that text denotes:

* a name without double quote and without backslash is a string literal of that
  value, and the statement is the one the program means;
* a name with an odd number of double quotes (and no other character that opens a
  string, an identifier or a comment) leaves a string open: a syntax error, and
  the statement fails;
* for every other name the statement is a different statement, and what it does
  is left to the server (the `other...` fields of `Server`).

The key column is `VARCHAR(30)`, `latency` and `probes` are `INT(11)`, the
timestamps are `TIMESTAMP`.  A server in strict mode rejects a statement that puts
an over-long string, a number outside `INT` or the time `FROM_UNIXTIME(0)` into a
column; otherwise it cuts the string, clamps the number and stores the zero
timestamp.  A `TIMESTAMP` is its number of seconds (the zero timestamp being `0`);
statements with `FROM_UNIXTIME(t)` for `t` at or beyond `2^31` are left to the
server as well. -/

/-- A row of table `timeseries`: `domain | ts | latency`. -/
structure TimeseriesRow where
  domain : String
  ts : Nat
  latency : Nat
  deriving DecidableEq, Repr

/-- A row of table `stats`:
`domain | avg_latency | std_latency | probes | ts_first | ts_last`. -/
structure StatsRow where
  domain : String
  avg_latency : ℚ
  std_latency : ℚ
  probes : Int
  ts_first : Nat
  ts_last : Nat
  deriving DecidableEq, Repr

/-- The database: the rows of both tables, in insertion order. -/
structure Store where
  timeseries : List TimeseriesRow
  stats : List StatsRow
  deriving DecidableEq, Repr

/-- What `query.store()` returns: `copacetic` is what `if (!res)` tests (whether the
query was executed), `rows` is what `res[i]` indexes. -/
structure StoreQueryResult where
  copacetic : Bool
  rows : List StatsRow
  deriving DecidableEq, Repr

/-- The database server.  `strict` is its mode for values that do not fit a column.
`AVG` and `STD` are its aggregate functions over a non-empty list of latencies, each
as the value of the `double` that `strtod` reads from the answer.  The `other...`
fields are what the server does with the statements of the program that are
not the statements the program means (see above), one field per statement. -/
structure Server where
  strict : Bool
  AVG : List Nat → ℚ
  STD : List Nat → ℚ
  otherInsertStats : Store → String → Store
  otherInsertTimeseries : Store → String → Nat → Nat → Store
  otherSelectStats : Store → String → StoreQueryResult
  otherSelectAVG : Store → String → Option ℚ
  otherSelectSTD : Store → String → Option ℚ
  otherUpdateStats : Store → String → ℚ → ℚ → Int → Nat → Nat → Store

/-- The double quote. -/
def dquote : Char := Char.ofNat 34

/-- The backslash. -/
def backslash : Char := Char.ofNat 92

/-- The characters that, outside a double-quoted string, escape a character or open
a string, a quoted identifier or a comment: backslash, single quote, backquote,
hash, minus and slash. -/
def lexActive : List Char :=
  [Char.ofNat 92, Char.ofNat 39, Char.ofNat 96, Char.ofNat 35, Char.ofNat 45, Char.ofNat 47]

/-- What the text of a name between two double quotes is to the server. -/
inductive Spliced where
  | literal
  | syntaxError
  | other
  deriving DecidableEq, Repr

/-- The reading of a name pasted between double quotes. -/
def spliced (name : String) : Spliced :=
  if dquote ∉ name.toList ∧ backslash ∉ name.toList then Spliced.literal
  else if name.toList.count dquote % 2 = 1 ∧ ∀ c ∈ lexActive, c ∉ name.toList then
    Spliced.syntaxError
  else Spliced.other

/-- What a `VARCHAR(30)` column keeps of a string when the server cuts it. -/
def cutKey (name : String) : String := String.mk (name.toList.take 30)

/-- The value of a C `int` after an arithmetic result is stored in it: `INT_MAX + 1`
wraps to `INT_MIN`. -/
def toInt32 (x : Int) : Int := (x + 2147483648) % 4294967296 - 2147483648

/-- The row `(domain, 0, 0, 0, 0, 0)` that `init_stats` inserts. -/
def zeroRow (domain : String) : StatsRow :=
  { domain := domain, avg_latency := 0, std_latency := 0, probes := 0, ts_first := 0, ts_last := 0 }

/-- Adding a row to `stats`: since `domain` is the primary key the insertion fails,
and changes nothing, when a row with that key exists. -/
def insertRow (db : Store) (row : StatsRow) : Store :=
  if db.stats.any (fun r => decide (r.domain = row.domain)) then db
  else { db with stats := db.stats ++ [row] }

/-- The statement `INSERT INTO stats VALUES ("name", 0, 0, 0, 0, 0);`. -/
def insertStats (sv : Server) (db : Store) (name : String) : Store :=
  match spliced name with
  | Spliced.literal =>
    if sv.strict && decide (30 < name.length) then db
    else insertRow db (zeroRow (cutKey name))
  | Spliced.syntaxError => db
  | Spliced.other => sv.otherInsertStats db name

/-- The function `init_stats`: one `INSERT` per entry of `domains[0..domainsNum)`, the
outcome of each being ignored. -/
def init_stats (sv : Server) (db : Store) : List String → Store
  | [] => db
  | d :: ds => init_stats sv (insertStats sv db d) ds

/-- Adding a row to `timeseries`. -/
def appendSample (db : Store) (domain : String) (latency timestamp : Nat) : Store :=
  { db with timeseries := db.timeseries ++ [⟨domain, timestamp, latency⟩] }

/-- The statement
`INSERT INTO timeseries VALUES ("name", FROM_UNIXTIME(tv_sec), latency);`. -/
def insertTimeseries (sv : Server) (db : Store) (name : String) (latency timestamp : Nat) :
    Store :=
  match spliced name with
  | Spliced.literal =>
    if 2147483648 ≤ timestamp then sv.otherInsertTimeseries db name latency timestamp
    else if sv.strict &&
        (decide (30 < name.length) || decide (2147483648 ≤ latency) || decide (timestamp = 0))
      then db
    else appendSample db (cutKey name) (min latency 2147483647) timestamp
  | Spliced.syntaxError => db
  | Spliced.other => sv.otherInsertTimeseries db name latency timestamp

/-- The query `SELECT * FROM stats WHERE domain="name"` through `query.store()`.  The
result object converts to `true` whenever the query was executed, with or without
rows in the result set, and to `false` when the server rejected the text. -/
def selectStats (sv : Server) (db : Store) (name : String) : StoreQueryResult :=
  match spliced name with
  | Spliced.literal =>
    { copacetic := true, rows := db.stats.filter (fun r => decide (r.domain = name)) }
  | Spliced.syntaxError => { copacetic := false, rows := [] }
  | Spliced.other => sv.otherSelectStats db name

/-- The latencies of the rows of `timeseries` whose key is the given string. -/
def latenciesOf (db : Store) (domain : String) : List Nat :=
  (db.timeseries.filter (fun r => decide (r.domain = domain))).map (fun r => r.latency)

/-- The query `SELECT AVG(latency) FROM timeseries WHERE domain="name"` followed by
`strtod(res[0][0].c_str(), NULL)`: `none` when the query was rejected, so that `res`
has no row 0; the `NULL` of an aggregate over no rows reads as `0`. -/
def selectAVG (sv : Server) (db : Store) (name : String) : Option ℚ :=
  match spliced name with
  | Spliced.literal =>
    if latenciesOf db name = [] then some 0 else some (sv.AVG (latenciesOf db name))
  | Spliced.syntaxError => none
  | Spliced.other => sv.otherSelectAVG db name

/-- The query `SELECT STD(latency) FROM timeseries WHERE domain="name"` followed by
`strtod(res[0][0].c_str(), NULL)`, as for `AVG`. -/
def selectSTD (sv : Server) (db : Store) (name : String) : Option ℚ :=
  match spliced name with
  | Spliced.literal =>
    if latenciesOf db name = [] then some 0 else some (sv.STD (latenciesOf db name))
  | Spliced.syntaxError => none
  | Spliced.other => sv.otherSelectSTD db name

/-- Setting the five value columns of every row of `stats` with the given key. -/
def updateRows (db : Store) (domain : String) (avg std : ℚ) (probes : Int)
    (ts_first ts_last : Nat) : Store :=
  { db with
    stats := db.stats.map (fun r =>
      if r.domain = domain then
        { r with avg_latency := avg, std_latency := std, probes := probes,
                 ts_first := ts_first, ts_last := ts_last }
      else r) }

/-- The statement `UPDATE stats SET avg_latency=..., std_latency=..., probes=...,
ts_first=..., ts_last=FROM_UNIXTIME(tv_sec) WHERE domain="name"`; `ts_first` is the
time the statement assigns, be it `FROM_UNIXTIME(tv_sec)` or the stored value
written back. -/
def updateStats (sv : Server) (db : Store) (name : String) (avg std : ℚ) (probes : Int)
    (ts_first timestamp : Nat) : Store :=
  match spliced name with
  | Spliced.literal =>
    if 2147483648 ≤ timestamp then
      sv.otherUpdateStats db name avg std probes ts_first timestamp
    else if sv.strict && decide (timestamp = 0) then db
    else updateRows db name avg std probes ts_first timestamp
  | Spliced.syntaxError => db
  | Spliced.other => sv.otherUpdateStats db name avg std probes ts_first timestamp

/-- Rounding to the nearest integer, a tie going to the even neighbour. -/
def roundHalfEven (x : ℚ) : ℤ :=
  let f := ⌊x⌋
  if x - f < 1 / 2 then f
  else if 1 / 2 < x - f then f + 1
  else if f % 2 = 0 then f else f + 1

/-- A positive value rounded to `p` significant digits in base `b`. -/
def significant (b p : ℕ) (x : ℚ) : ℚ :=
  let u : ℚ := (b : ℚ) ^ (Int.log b x - ((p : ℤ) - 1))
  roundHalfEven (x / u) * u

/-- A value rounded to `p` significant digits in base `b`. -/
def roundSig (b p : ℕ) (x : ℚ) : ℚ :=
  if x = 0 then 0 else if 0 < x then significant b p x else -significant b p (-x)

/-- The value of the text that `query << x` writes for a `double x`: the stream
is never given a precision, so the text carries six significant decimal digits. -/
def streamDouble (x : ℚ) : ℚ := roundSig 10 6 x

/-- The `double` nearest to a value (53 significant binary digits). -/
def toDouble (x : ℚ) : ℚ := roundSig 2 53 x

/-- How a call of `updateDB` ends: it returns, with or without the "cannot retrieve
results" warning, or it evaluates `res[0]` on a result set that has no row. -/
inductive Outcome where
  | done (db : Store) (warned : Bool)
  | rowOutOfRange (db : Store)
  deriving DecidableEq, Repr

/-- The function `updateDB` (dnsping.cpp, lines 191-244). -/
def updateDB (sv : Server) (db : Store) (domain : String) (latency timestamp : Nat) :
    Outcome :=
  let db1 := insertTimeseries sv db domain latency timestamp
  let res := selectStats sv db1 domain
  if !res.copacetic then Outcome.done db1 true
  else
    match res.rows with
    | [] => Outcome.rowOutOfRange db1
    | row0 :: _ =>
      let probes := toInt32 (row0.probes + 1)
      let ts_first_prev := row0.ts_first
      match selectAVG sv db1 domain with
      | none => Outcome.rowOutOfRange db1
      | some avg_latency =>
        match selectSTD sv db1 domain with
        | none => Outcome.rowOutOfRange db1
        | some std_latency =>
          let ts_first := if probes = 1 then timestamp else ts_first_prev
          Outcome.done
            (updateStats sv db1 domain (streamDouble avg_latency) (streamDouble std_latency)
              probes ts_first timestamp)
            false

/-- The arguments of one `updateDB` call. -/
structure Call where
  domain : String
  latency : Nat
  timestamp : Nat
  deriving DecidableEq, Repr

/-- The first row of `stats` with the given key, when there is one. -/
def statsOf (db : Store) (domain : String) : Option StatsRow :=
  (db.stats.filter (fun r => decide (r.domain = domain))).head?

/-- Whether the `stats` table has a row with the given key. -/
def hasRow (db : Store) (domain : String) : Bool :=
  db.stats.any (fun r => decide (r.domain = domain))

/-- A name that every statement reads as the string it is: no double quote, no
backslash, at most 30 characters. -/
def PlainName (name : String) : Prop :=
  dquote ∉ name.toList ∧ backslash ∉ name.toList ∧ name.length ≤ 30

/-- A call whose values fit the columns: a plain name, a latency within `INT`, a time
within `TIMESTAMP`. -/
def ValidCall (c : Call) : Prop :=
  PlainName c.domain ∧ c.latency < 2147483648 ∧ 1 ≤ c.timestamp ∧ c.timestamp < 2147483648

instance (name : String) : Decidable (PlainName name) :=
  inferInstanceAs (Decidable (dquote ∉ name.toList ∧ backslash ∉ name.toList ∧ name.length ≤ 30))

instance (c : Call) : Decidable (ValidCall c) :=
  inferInstanceAs (Decidable
    (PlainName c.domain ∧ c.latency < 2147483648 ∧ 1 ≤ c.timestamp ∧ c.timestamp < 2147483648))

/-- The exact arithmetic mean of a list of latencies. -/
def mean (ls : List Nat) : ℚ := (ls.sum : ℚ) / (ls.length : ℚ)

/-- The exact population variance (divisor: the number of samples). -/
def popVariance (ls : List Nat) : ℚ :=
  ((ls.map (fun x => ((x : ℚ) - mean ls) ^ 2)).sum) / (ls.length : ℚ)

/-- A non-negative value `s` is the population standard deviation of the list up to
the relative errors `lo` (below) and `hi` (above): its square lies between
`(1 - lo)^2` and `(1 + hi)^2` times the population variance. -/
def IsPopStd (lo hi : ℚ) (ls : List Nat) (s : ℚ) : Prop :=
  0 ≤ s ∧ (1 - lo) ^ 2 * popVariance ls ≤ s ^ 2 ∧ s ^ 2 ≤ (1 + hi) ^ 2 * popVariance ls

/-- A value rounded to `k` decimals, a tie going up. -/
def roundDecimals (k : Nat) (x : ℚ) : ℚ := (⌊x * 10 ^ k + 1 / 2⌋ : ℚ) / 10 ^ k

/-- The square root of a non-negative rational, cut after `k` decimals. -/
def sqrtDecimals (k : Nat) (v : ℚ) : ℚ :=
  (Nat.sqrt ⌊v * 100 ^ k⌋₊ : ℚ) / 10 ^ k

/-- A server for the worked examples: not strict; `AVG` is the mean as a decimal
with four decimals, read as a `double`; `STD` is the population standard deviation
cut after fifteen decimals, read as a `double`; statements that are not the ones
the program means change nothing and return nothing. -/
def referenceSql : Server :=
  { strict := false
    AVG := fun ls => toDouble (roundDecimals 4 (mean ls))
    STD := fun ls => toDouble (sqrtDecimals 15 (popVariance ls))
    otherInsertStats := fun db _ => db
    otherInsertTimeseries := fun db _ _ _ => db
    otherSelectStats := fun _ _ => { copacetic := false, rows := [] }
    otherSelectAVG := fun _ _ => none
    otherSelectSTD := fun _ _ => none
    otherUpdateStats := fun db _ _ _ _ _ _ => db }

/-- The row a `stats` row becomes by the `UPDATE` of `updateDB`, for a valid call. -/
def updatedRow (sv : Server) (db : Store) (r0 : StatsRow) (domain : String)
    (latency timestamp : Nat) : StatsRow :=
  { r0 with
    avg_latency := streamDouble (sv.AVG (latenciesOf db domain ++ [latency]))
    std_latency := streamDouble (sv.STD (latenciesOf db domain ++ [latency]))
    probes := toInt32 (r0.probes + 1)
    ts_first := if toInt32 (r0.probes + 1) = 1 then timestamp else r0.ts_first
    ts_last := timestamp }

/-- The store a valid call of `updateDB` leaves when `res[0]` is `r0`. -/
def afterUpdate (sv : Server) (db : Store) (r0 : StatsRow) (d : String) (l t : Nat) :
    Store :=
  updateRows (appendSample db d l t) d
    (streamDouble (sv.AVG (latenciesOf db d ++ [l])))
    (streamDouble (sv.STD (latenciesOf db d ++ [l])))
    (toInt32 (r0.probes + 1)) (if toInt32 (r0.probes + 1) = 1 then t else r0.ts_first) t

/-- The name `a"b`. -/
def nameWithQuote : String := String.mk ['a', dquote, 'b']

/-! ## `main`: the probing rounds (dnsping.cpp, lines 253, 283-285, 327-328, 396-415) -/

/-- The value of `count` after option parsing: `-1` unless `-c` was given, and then
the integer `atoi` read from its argument. -/
def parsedCount (optC : Option Int) : Int :=
  match optC with
  | none => -1
  | some c => c

/-- The start-up message prints "for ever" exactly when `count<0`. -/
def announcesForEver (count : Int) : Bool := decide (count < 0)

/-- The guard `count==-1 || probe_counter<count` of the round loop. -/
def loopGuard (count probe_counter : Int) : Bool :=
  decide (count = -1) || decide (probe_counter < count)

/-- The inner `for` loop of one round: `probe` is called for every entry of
`domains[0..domainsNum)` in order; its return value (`probeOk`) only decides whether
`updateDB` follows.  The result lists the attempts with their outcome. -/
def probeRound (probeOk : Int → String → Bool) (round : Int) (domains : List String) :
    List (String × Bool) :=
  domains.map (fun d => (d, probeOk round d))

/-- The round loop, observed for at most `fuel` rounds from the given value of
`probe_counter`: the final `probe_counter`, the probe attempts made, and whether
the loop is still running (guard still true) when the observation stops. -/
def probingLoop (probeOk : Int → String → Bool) (count : Int) (domains : List String) :
    Nat → Int → List (String × Bool) → Int × List (String × Bool) × Bool
  | 0, probe_counter, attempts => (probe_counter, attempts, loopGuard count probe_counter)
  | fuel + 1, probe_counter, attempts =>
    if loopGuard count probe_counter then
      probingLoop probeOk count domains fuel (probe_counter + 1)
        (attempts ++ probeRound probeOk probe_counter domains)
    else (probe_counter, attempts, false)

/-! ## Rounding -/

theorem roundHalfEven_sub_le (y : ℚ) : |(roundHalfEven y : ℚ) - y| ≤ 1 / 2 := by
  have h1 := Int.floor_le y
  have h2 := Int.lt_floor_add_one y
  unfold roundHalfEven
  simp only
  rw [abs_le]
  split_ifs with ha hb hc
  · constructor <;> linarith
  · push_cast; constructor <;> linarith
  · constructor <;> linarith
  · push_cast; constructor <;> linarith

theorem roundHalfEven_of_near (y : ℚ) (n : ℤ) (h1 : (n : ℚ) - 1 / 2 < y) (h2 : y < n + 1 / 2) :
    roundHalfEven y = n := by
  have h := abs_le.1 (roundHalfEven_sub_le y)
  have ha : ((roundHalfEven y : ℤ) : ℚ) < ((n + 1 : ℤ) : ℚ) := by push_cast; linarith [h.2]
  have hb : ((n - 1 : ℤ) : ℚ) < ((roundHalfEven y : ℤ) : ℚ) := by push_cast; linarith [h.1]
  have ha1 := Int.cast_lt.1 ha
  have hb1 := Int.cast_lt.1 hb
  omega

theorem roundHalfEven_intCast (n : ℤ) : roundHalfEven (n : ℚ) = n :=
  roundHalfEven_of_near _ n (by linarith) (by linarith)

theorem intLog_eq (b : ℕ) (hb : 1 < b) (x : ℚ) (e : ℤ) (h1 : (b : ℚ) ^ e ≤ x)
    (h2 : x < (b : ℚ) ^ (e + 1)) : Int.log b x = e := by
  have hb0 : (0 : ℚ) < b := by exact_mod_cast (by omega : 0 < b)
  have hx : 0 < x := lt_of_lt_of_le (zpow_pos hb0 e) h1
  have ha : e ≤ Int.log b x := (Int.zpow_le_iff_le_log hb hx).1 h1
  have hc : Int.log b x < e + 1 := (Int.lt_zpow_iff_log_lt hb hx).1 h2
  omega

theorem significant_of_bounds (b p : ℕ) (hb : 1 < b) (x : ℚ) (e : ℤ) (n : ℤ)
    (h1 : (b : ℚ) ^ e ≤ x) (h2 : x < (b : ℚ) ^ (e + 1))
    (h3 : (n : ℚ) - 1 / 2 < x / (b : ℚ) ^ (e - ((p : ℤ) - 1)))
    (h4 : x / (b : ℚ) ^ (e - ((p : ℤ) - 1)) < n + 1 / 2) :
    significant b p x = n * (b : ℚ) ^ (e - ((p : ℤ) - 1)) := by
  unfold significant
  simp only
  rw [intLog_eq b hb x e h1 h2, roundHalfEven_of_near _ n h3 h4]

theorem roundSig_natCast (b p : ℕ) (hb : 1 < b) (n : ℕ) (h : n < b ^ p) :
    roundSig b p (n : ℚ) = n := by
  rcases Nat.eq_zero_or_pos n with h0 | hpos
  · subst h0; simp [roundSig]
  have hq : (0 : ℚ) < n := by exact_mod_cast hpos
  have hne : (n : ℚ) ≠ 0 := ne_of_gt hq
  have he : Nat.log b n < p := Nat.log_lt_of_lt_pow (by omega) h
  have hb0 : (0 : ℚ) < b := by exact_mod_cast (by omega : 0 < b)
  have hu : (b : ℚ) ^ ((Nat.log b n : ℤ) - ((p : ℤ) - 1))
      = ((b : ℚ) ^ (p - 1 - Nat.log b n))⁻¹ := by
    have : ((Nat.log b n : ℤ) - ((p : ℤ) - 1)) = -((p - 1 - Nat.log b n : ℕ) : ℤ) := by omega
    rw [this, zpow_neg, zpow_natCast]
  have hpw : (0 : ℚ) < (b : ℚ) ^ (p - 1 - Nat.log b n) := pow_pos hb0 _
  unfold roundSig significant
  simp only [if_neg hne, if_pos hq]
  rw [Int.log_natCast, hu, div_inv_eq_mul]
  have hcast : (n : ℚ) * (b : ℚ) ^ (p - 1 - Nat.log b n)
      = (((n * b ^ (p - 1 - Nat.log b n) : ℕ) : ℤ) : ℚ) := by push_cast; ring
  rw [hcast, roundHalfEven_intCast]
  push_cast
  field_simp

theorem roundSig_sub_le (b p : ℕ) (hb : 1 < b) (hp : 1 ≤ p) (x : ℚ) :
    |roundSig b p x - x| ≤ |x| / (2 * (b : ℚ) ^ (p - 1)) := by
  have hb0 : (0 : ℚ) < b := by exact_mod_cast (by omega : 0 < b)
  have hbp : (0 : ℚ) < (b : ℚ) ^ (p - 1) := pow_pos hb0 _
  have key : ∀ y : ℚ, 0 < y → |significant b p y - y| ≤ y / (2 * (b : ℚ) ^ (p - 1)) := by
    intro y hy
    have hlow : (b : ℚ) ^ Int.log b y ≤ y := Int.zpow_log_le_self (R := ℚ) hb hy
    have hu : (0 : ℚ) < (b : ℚ) ^ (Int.log b y - ((p : ℤ) - 1)) := zpow_pos hb0 _
    have hu2 : (b : ℚ) ^ (Int.log b y - ((p : ℤ) - 1))
        = (b : ℚ) ^ Int.log b y / (b : ℚ) ^ (p - 1) := by
      have : ((p : ℤ) - 1) = ((p - 1 : ℕ) : ℤ) := by omega
      rw [zpow_sub₀ (ne_of_gt hb0), this, zpow_natCast]
    have hr := roundHalfEven_sub_le (y / (b : ℚ) ^ (Int.log b y - ((p : ℤ) - 1)))
    unfold significant
    simp only
    have hre : (roundHalfEven (y / (b : ℚ) ^ (Int.log b y - ((p : ℤ) - 1))) : ℚ)
          * (b : ℚ) ^ (Int.log b y - ((p : ℤ) - 1)) - y
        = ((roundHalfEven (y / (b : ℚ) ^ (Int.log b y - ((p : ℤ) - 1))) : ℚ)
            - y / (b : ℚ) ^ (Int.log b y - ((p : ℤ) - 1)))
          * (b : ℚ) ^ (Int.log b y - ((p : ℤ) - 1)) := by
      field_simp
    rw [hre, abs_mul, abs_of_pos hu]
    calc _ ≤ 1 / 2 * (b : ℚ) ^ (Int.log b y - ((p : ℤ) - 1)) :=
            mul_le_mul_of_nonneg_right hr hu.le
      _ = (b : ℚ) ^ Int.log b y / (2 * (b : ℚ) ^ (p - 1)) := by rw [hu2]; field_simp
      _ ≤ y / (2 * (b : ℚ) ^ (p - 1)) :=
            div_le_div_of_nonneg_right hlow (by positivity)
  unfold roundSig
  split_ifs with h0 hpos
  · subst h0; simp
  · rw [abs_of_pos hpos]; exact key x hpos
  · have hneg : x < 0 := lt_of_le_of_ne (not_lt.1 hpos) h0
    have := key (-x) (by linarith)
    rw [abs_of_neg hneg]
    have e : -significant b p (-x) - x = -(significant b p (-x) - -x) := by ring
    rw [e, abs_neg]
    exact this

theorem streamDouble_natCast (n : ℕ) (h : n < 10 ^ 6) : streamDouble (n : ℚ) = n :=
  roundSig_natCast 10 6 (by norm_num) n h

theorem toDouble_natCast (n : ℕ) (h : n < 2 ^ 53) : toDouble (n : ℚ) = n :=
  roundSig_natCast 2 53 (by norm_num) n h

theorem streamDouble_sub_le (x : ℚ) : |streamDouble x - x| ≤ |x| / 200000 := by
  have := roundSig_sub_le 10 6 (by norm_num) (by norm_num) x
  norm_num at this
  exact this

theorem toDouble_sub_le (x : ℚ) : |toDouble x - x| ≤ |x| / 9007199254740992 := by
  have := roundSig_sub_le 2 53 (by norm_num) (by norm_num) x
  norm_num at this
  exact this

theorem streamDouble_of_bounds (x : ℚ) (e : ℤ) (n : ℤ) (h1 : (10 : ℚ) ^ e ≤ x)
    (h2 : x < (10 : ℚ) ^ (e + 1))
    (h3 : (n : ℚ) - 1 / 2 < x / (10 : ℚ) ^ (e - 5)) (h4 : x / (10 : ℚ) ^ (e - 5) < n + 1 / 2) :
    streamDouble x = n * (10 : ℚ) ^ (e - 5) := by
  have hx : 0 < x := lt_of_lt_of_le (zpow_pos (by norm_num) e) h1
  have := significant_of_bounds 10 6 (by norm_num) x e n (by simpa using h1) (by simpa using h2)
    (by simpa using h3) (by simpa using h4)
  unfold streamDouble roundSig
  rw [if_neg (ne_of_gt hx), if_pos hx, this]
  norm_num

theorem roundDecimals_natCast (k n : ℕ) : roundDecimals k (n : ℚ) = n := by
  unfold roundDecimals
  have hf : ⌊(n : ℚ) * 10 ^ k + 1 / 2⌋ = ((n * 10 ^ k : ℕ) : ℤ) := by
    rw [Int.floor_eq_iff]
    push_cast
    constructor <;> linarith
  rw [hf]
  push_cast
  field_simp

theorem mean_nonneg (ls : List Nat) : 0 ≤ mean ls := by
  unfold mean
  positivity

theorem popVariance_nonneg (ls : List Nat) : 0 ≤ popVariance ls := by
  unfold popVariance
  apply div_nonneg _ (by positivity)
  apply List.sum_nonneg
  intro x hx
  obtain ⟨a, _, rfl⟩ := List.mem_map.1 hx
  positivity

theorem streamDouble_1000001 : streamDouble 1000001 = 1000000 := by
  rw [streamDouble_of_bounds 1000001 6 100000 (by norm_num) (by norm_num) (by norm_num)
    (by norm_num)]
  norm_num

/-- The text of a value near `100.3333` is `100.333`. -/
theorem streamDouble_near_100_3333 (y : ℚ) (h1 : (1003332 : ℚ) / 10000 ≤ y)
    (h2 : y ≤ 1003334 / 10000) : streamDouble y = 100333 / 1000 := by
  rw [streamDouble_of_bounds y 2 100333 (by norm_num; linarith) (by norm_num; linarith)
    (by norm_num; linarith) (by norm_num; linarith)]
  norm_num

/-- The text of a value near `8.16496581` is `8.16497`. -/
theorem streamDouble_near_std (y : ℚ) (h1 : (81649656 : ℚ) / 10000000 ≤ y)
    (h2 : y ≤ 816497 / 100000) : streamDouble y = 816497 / 100000 := by
  rw [streamDouble_of_bounds y 0 816497 (by norm_num; linarith) (by norm_num; linarith)
    (by norm_num; linarith) (by norm_num; linarith)]
  norm_num

/-- A `double` lies within a `2^53`-rd of the value it was read from. -/
theorem toDouble_between (x : ℚ) (hx : 0 ≤ x) :
    x - x / 9007199254740992 ≤ toDouble x ∧ toDouble x ≤ x + x / 9007199254740992 := by
  have h := abs_le.1 (toDouble_sub_le x)
  rw [abs_of_nonneg hx] at h
  constructor <;> linarith [h.1, h.2]

/-! ## Statements on plain names -/

theorem spliced_of_plain (d : String) (h : PlainName d) : spliced d = Spliced.literal := by
  unfold spliced
  rw [if_pos ⟨h.1, h.2.1⟩]

theorem cutKey_of_plain (d : String) (h : PlainName d) : cutKey d = d := by
  have hl : d.toList.length ≤ 30 := h.2.2
  unfold cutKey
  rw [List.take_of_length_le hl]
  rfl

theorem insertTimeseries_of_valid (sv : Server) (db : Store) (c : Call) (h : ValidCall c) :
    insertTimeseries sv db c.domain c.latency c.timestamp
      = appendSample db c.domain c.latency c.timestamp := by
  obtain ⟨hp, hlat, ht1, ht2⟩ := h
  have hl : ¬ 30 < c.domain.length := not_lt.2 hp.2.2
  have h1 : ¬ 2147483648 ≤ c.timestamp := by omega
  have h2 : ¬ 2147483648 ≤ c.latency := by omega
  have h3 : ¬ c.timestamp = 0 := by omega
  have h4 : min c.latency 2147483647 = c.latency := by omega
  unfold insertTimeseries
  rw [spliced_of_plain _ hp, cutKey_of_plain _ hp]
  simp [hl, h1, h2, h3, h4]

theorem selectStats_of_plain (sv : Server) (db : Store) (d : String) (h : PlainName d) :
    selectStats sv db d
      = { copacetic := true, rows := db.stats.filter (fun r => decide (r.domain = d)) } := by
  unfold selectStats
  rw [spliced_of_plain d h]

theorem selectAVG_of_plain (sv : Server) (db : Store) (d : String) (h : PlainName d)
    (hne : latenciesOf db d ≠ []) : selectAVG sv db d = some (sv.AVG (latenciesOf db d)) := by
  unfold selectAVG
  rw [spliced_of_plain d h]
  simp [hne]

theorem selectSTD_of_plain (sv : Server) (db : Store) (d : String) (h : PlainName d)
    (hne : latenciesOf db d ≠ []) : selectSTD sv db d = some (sv.STD (latenciesOf db d)) := by
  unfold selectSTD
  rw [spliced_of_plain d h]
  simp [hne]

theorem updateStats_of_valid (sv : Server) (db : Store) (d : String) (avg std : ℚ) (p : Int)
    (f t : Nat) (h : PlainName d) (ht1 : 1 ≤ t) (ht2 : t < 2147483648) :
    updateStats sv db d avg std p f t = updateRows db d avg std p f t := by
  have h1 : ¬ 2147483648 ≤ t := by omega
  have h3 : ¬ t = 0 := by omega
  unfold updateStats
  rw [spliced_of_plain d h]
  simp [h1, h3]

/-! ## Lemmas on the store -/

theorem latenciesOf_appendSample_self (db : Store) (d : String) (l t : Nat) :
    latenciesOf (appendSample db d l t) d = latenciesOf db d ++ [l] := by
  simp [latenciesOf, appendSample, List.filter_append]

theorem statsOf_eq_find (db : Store) (d : String) :
    statsOf db d = db.stats.find? (fun r => decide (r.domain = d)) := by
  simp [statsOf]

theorem statsOf_eq_none_iff (db : Store) (d : String) :
    statsOf db d = none ↔ hasRow db d = false := by
  unfold statsOf hasRow
  induction db.stats with
  | nil => simp
  | cons r rs ih =>
    by_cases h : r.domain = d
    · simp [List.filter_cons, h]
    · simp [List.filter_cons, h]

theorem statsOf_isSome_iff (db : Store) (d : String) :
    (∃ r, statsOf db d = some r) ↔ hasRow db d = true := by
  rcases hs : statsOf db d with _ | r
  · have := (statsOf_eq_none_iff db d).1 hs
    simp [this]
  · have hne : ¬ hasRow db d = false := fun h => by
      rw [(statsOf_eq_none_iff db d).2 h] at hs
      cases hs
    simpa using hne

theorem find_map_update_self (d : String) (g : StatsRow → StatsRow)
    (hg : ∀ r, (g r).domain = r.domain) (rows : List StatsRow) (r0 : StatsRow)
    (h : rows.find? (fun r => decide (r.domain = d)) = some r0) :
    (rows.map (fun r => if r.domain = d then g r else r)).find?
      (fun r => decide (r.domain = d)) = some (g r0) := by
  induction rows with
  | nil => simp at h
  | cons r rs ih =>
    by_cases hr : r.domain = d
    · have hgr : (g r).domain = d := (hg r).trans hr
      simp only [List.find?_cons, hr, decide_True] at h
      simp only [List.map_cons, hr, if_true, List.find?_cons, hgr, decide_True]
      cases h
      rfl
    · simp only [List.find?_cons, hr, decide_False] at h
      simp only [List.map_cons, hr, if_false, List.find?_cons, decide_False]
      exact ih h

theorem statsOf_updateRows_self (db : Store) (d : String) (avg std : ℚ) (p : Int) (f l : Nat)
    (r0 : StatsRow) (h : statsOf db d = some r0) :
    statsOf (updateRows db d avg std p f l) d =
      some { r0 with avg_latency := avg, std_latency := std, probes := p,
                     ts_first := f, ts_last := l } := by
  rw [statsOf_eq_find] at h ⊢
  exact find_map_update_self d
    (fun r => { r with avg_latency := avg, std_latency := std, probes := p,
                       ts_first := f, ts_last := l })
    (fun _ => rfl) db.stats r0 h

/-- One valid call of `updateDB` on a store that has a row for the domain. -/
theorem updateDB_of_row (sv : Server) (db : Store) (c : Call) (hv : ValidCall c)
    (r0 : StatsRow) (h : statsOf db c.domain = some r0) :
    updateDB sv db c.domain c.latency c.timestamp
      = Outcome.done (afterUpdate sv db r0 c.domain c.latency c.timestamp) false := by
  have hp := hv.1
  have hl := latenciesOf_appendSample_self db c.domain c.latency c.timestamp
  have hne : latenciesOf (appendSample db c.domain c.latency c.timestamp) c.domain ≠ [] := by
    rw [hl]; simp
  have h1 : statsOf (appendSample db c.domain c.latency c.timestamp) c.domain = some r0 := h
  unfold statsOf at h1
  unfold updateDB afterUpdate
  simp only [insertTimeseries_of_valid sv db c hv, selectStats_of_plain sv _ _ hp,
    selectAVG_of_plain sv _ _ hp hne, selectSTD_of_plain sv _ _ hp hne,
    updateStats_of_valid sv _ _ _ _ _ _ _ hp hv.2.2.1 hv.2.2.2, hl]
  cases hrows : List.filter (fun r => decide (r.domain = c.domain))
      (appendSample db c.domain c.latency c.timestamp).stats with
  | nil => rw [hrows] at h1; cases h1
  | cons row0 rest =>
    rw [hrows] at h1
    simp only [List.head?_cons, Option.some.injEq] at h1
    subst h1
    simp

/-- One valid call of `updateDB` on a store that has no row for the domain. -/
theorem updateDB_of_no_row (sv : Server) (db : Store) (c : Call) (hv : ValidCall c)
    (h : statsOf db c.domain = none) :
    updateDB sv db c.domain c.latency c.timestamp
      = Outcome.rowOutOfRange (appendSample db c.domain c.latency c.timestamp) := by
  have hp := hv.1
  have h1 : statsOf (appendSample db c.domain c.latency c.timestamp) c.domain = none := h
  unfold statsOf at h1
  unfold updateDB
  simp only [insertTimeseries_of_valid sv db c hv, selectStats_of_plain sv _ _ hp]
  cases hrows : List.filter (fun r => decide (r.domain = c.domain))
      (appendSample db c.domain c.latency c.timestamp).stats with
  | nil => simp
  | cons row0 rest => rw [hrows] at h1; cases h1

theorem statsOf_afterUpdate_self (sv : Server) (db : Store) (r0 : StatsRow)
    (d : String) (l t : Nat) (h : statsOf db d = some r0) :
    statsOf (afterUpdate sv db r0 d l t) d = some (updatedRow sv db r0 d l t) :=
  statsOf_updateRows_self (appendSample db d l t) d _ _ _ _ _ r0 h

theorem latenciesOf_afterUpdate_self (sv : Server) (db : Store) (r0 : StatsRow)
    (d : String) (l t : Nat) :
    latenciesOf (afterUpdate sv db r0 d l t) d = latenciesOf db d ++ [l] :=
  latenciesOf_appendSample_self db d l t

/-- C5: on a store whose `stats` table has no row for `a.com`, `updateDB` appends the
sample and then evaluates `res[0]` on the empty result set: no warning is logged and
the call does not return normally. -/
theorem updateDB_missing_row :
    updateDB referenceSql ⟨[], [zeroRow "b.com"]⟩ "a.com" 5 100
      = Outcome.rowOutOfRange ⟨[⟨"a.com", 100, 5⟩], [zeroRow "b.com"]⟩ ∧
    (selectStats referenceSql ⟨[⟨"a.com", 100, 5⟩], [zeroRow "b.com"]⟩ "a.com").copacetic
      = true ∧
    (selectStats referenceSql ⟨[⟨"a.com", 100, 5⟩], [zeroRow "b.com"]⟩ "a.com").rows = [] :=
  ⟨updateDB_of_no_row referenceSql ⟨[], [zeroRow "b.com"]⟩ ⟨"a.com", 5, 100⟩ (by decide)
    (by decide), rfl, by decide⟩

/-- What a valid call of `updateDB` stores for a domain that has a row. -/
theorem updateDB_stored (sv : Server) (db : Store) (d : String)
    (latency timestamp : Nat) (hv : ValidCall ⟨d, latency, timestamp⟩)
    (h : hasRow db d = true) :
    ∃ db1 r, updateDB sv db d latency timestamp = Outcome.done db1 false ∧
      statsOf db1 d = some r ∧
      latenciesOf db1 d = latenciesOf db d ++ [latency] ∧
      r.avg_latency = streamDouble (sv.AVG (latenciesOf db1 d)) ∧
      r.std_latency = streamDouble (sv.STD (latenciesOf db1 d)) := by
  obtain ⟨r0, hr0⟩ := (statsOf_isSome_iff db d).2 h
  have hl := latenciesOf_afterUpdate_self sv db r0 d latency timestamp
  have ha : (updatedRow sv db r0 d latency timestamp).avg_latency
      = streamDouble (sv.AVG (latenciesOf (afterUpdate sv db r0 d latency timestamp) d)) := by
    rw [hl]; rfl
  have hs : (updatedRow sv db r0 d latency timestamp).std_latency
      = streamDouble (sv.STD (latenciesOf (afterUpdate sv db r0 d latency timestamp) d)) := by
    rw [hl]; rfl
  exact ⟨afterUpdate sv db r0 d latency timestamp, updatedRow sv db r0 d latency timestamp,
    updateDB_of_row sv db ⟨d, latency, timestamp⟩ hv r0 hr0,
    statsOf_afterUpdate_self sv db r0 d latency timestamp hr0, hl, ha, hs⟩

/-- The text of a mean: within the server's error and the six digits of the text. -/
theorem streamDouble_mean (a m err : ℚ) (hm : 0 ≤ m) (h : |a - m| ≤ err) :
    |streamDouble a - m| ≤ err + (m + err) / 200000 := by
  have h1 := streamDouble_sub_le a
  have h2 : |a| ≤ m + err := by
    have := abs_sub_abs_le_abs_sub a m
    rw [abs_of_nonneg hm] at this
    linarith
  have h3 : |streamDouble a - m| ≤ |streamDouble a - a| + |a - m| := by
    have := abs_add (streamDouble a - a) (a - m)
    simpa using this
  have h4 : |a| / 200000 ≤ (m + err) / 200000 :=
    div_le_div_of_nonneg_right h2 (by norm_num)
  linarith

/-- The text of a standard deviation: the relative error grows by the six digits of
the text. -/
theorem streamDouble_popStd (lo hi : ℚ) (ls : List Nat) (s : ℚ) (hlo0 : 0 ≤ lo)
    (hlo1 : lo ≤ 1 / 2) (h : IsPopStd lo hi ls s) :
    IsPopStd (lo + 1 / 200000) (hi + 1 / 200000 + hi / 200000) ls (streamDouble s) := by
  obtain ⟨hs0, hl2, hh2⟩ := h
  have hV := popVariance_nonneg ls
  have hr := abs_le.1 (streamDouble_sub_le s)
  rw [abs_of_nonneg hs0] at hr
  have hrlo : s * (1 - 1 / 200000) ≤ streamDouble s := by linarith [hr.1]
  have hrhi : streamDouble s ≤ s * (1 + 1 / 200000) := by linarith [hr.2]
  have hslo : 0 ≤ s * (1 - 1 / 200000) := mul_nonneg hs0 (by norm_num)
  have hr0 : 0 ≤ streamDouble s := le_trans hslo hrlo
  refine ⟨hr0, ?_, ?_⟩
  · have e1 : 0 ≤ 1 - (lo + 1 / 200000) := by linarith
    have e2 : 1 - (lo + 1 / 200000) ≤ (1 - lo) * (1 - 1 / 200000) := by nlinarith
    have e3 : (1 - (lo + 1 / 200000)) ^ 2 ≤ ((1 - lo) * (1 - 1 / 200000)) ^ 2 :=
      pow_le_pow_left₀ e1 e2 2
    have e4 : (s * (1 - 1 / 200000)) ^ 2 ≤ streamDouble s ^ 2 := pow_le_pow_left₀ hslo hrlo 2
    calc (1 - (lo + 1 / 200000)) ^ 2 * popVariance ls
        ≤ ((1 - lo) * (1 - 1 / 200000)) ^ 2 * popVariance ls :=
          mul_le_mul_of_nonneg_right e3 hV
      _ = (1 - 1 / 200000) ^ 2 * ((1 - lo) ^ 2 * popVariance ls) := by ring
      _ ≤ (1 - 1 / 200000) ^ 2 * s ^ 2 := mul_le_mul_of_nonneg_left hl2 (by positivity)
      _ = (s * (1 - 1 / 200000)) ^ 2 := by ring
      _ ≤ streamDouble s ^ 2 := e4
  · have e4 : streamDouble s ^ 2 ≤ (s * (1 + 1 / 200000)) ^ 2 := pow_le_pow_left₀ hr0 hrhi 2
    calc streamDouble s ^ 2 ≤ (s * (1 + 1 / 200000)) ^ 2 := e4
      _ = (1 + 1 / 200000) ^ 2 * s ^ 2 := by ring
      _ ≤ (1 + 1 / 200000) ^ 2 * ((1 + hi) ^ 2 * popVariance ls) :=
          mul_le_mul_of_nonneg_left hh2 (by positivity)
      _ = (1 + (hi + 1 / 200000 + hi / 200000)) ^ 2 * popVariance ls := by ring

/-- C1, as amended: for a valid call (plain name, latency and time within their
columns) for a domain `d` that has a row, `updateDB` returns without warning, and
the `avg_latency` and `std_latency` it stores for `d` are the server's `AVG` and
`STD` over the latencies of all `timeseries` rows of `d`, the sample of this call
included and the rows of other domains excluded, each rounded to the six
significant digits of the statement text.  So when the server's `AVG` is the mean
up to `err`, the stored value is the mean up to `err + (mean + err) / 200000`, and
a mean that is a whole number below `10^6` and returned exactly is stored
exactly; and when the server's `STD` is the population standard deviation up to the
relative errors `lo` and `hi`, so is the stored value up to `lo + 1/200000` and
`hi + 1/200000 + hi/200000`. -/
theorem updateDB_aggregates (sv : Server) (db : Store) (d : String)
    (latency timestamp : Nat) (err lo hi : ℚ)
    (hv : ValidCall ⟨d, latency, timestamp⟩) (h : hasRow db d = true)
    (hAVG : |sv.AVG (latenciesOf db d ++ [latency]) - mean (latenciesOf db d ++ [latency])|
      ≤ err)
    (hSTD : IsPopStd lo hi (latenciesOf db d ++ [latency])
      (sv.STD (latenciesOf db d ++ [latency])))
    (hlo0 : 0 ≤ lo) (hlo1 : lo ≤ 1 / 2) :
    ∃ db1 r, updateDB sv db d latency timestamp = Outcome.done db1 false ∧
      statsOf db1 d = some r ∧
      latenciesOf db1 d = latenciesOf db d ++ [latency] ∧
      r.avg_latency = streamDouble (sv.AVG (latenciesOf db1 d)) ∧
      r.std_latency = streamDouble (sv.STD (latenciesOf db1 d)) ∧
      |r.avg_latency - mean (latenciesOf db1 d)|
        ≤ err + (mean (latenciesOf db1 d) + err) / 200000 ∧
      IsPopStd (lo + 1 / 200000) (hi + 1 / 200000 + hi / 200000) (latenciesOf db1 d)
        r.std_latency ∧
      (∀ n : ℕ, n < 10 ^ 6 → mean (latenciesOf db1 d) = n →
        sv.AVG (latenciesOf db1 d) = mean (latenciesOf db1 d) → r.avg_latency = n) := by
  obtain ⟨db1, r, hup, hst, hl, ha, hs⟩ := updateDB_stored sv db d latency timestamp hv h
  rw [← hl] at hAVG hSTD
  refine ⟨db1, r, hup, hst, hl, ha, hs, ?_, ?_, ?_⟩
  · rw [ha]
    exact streamDouble_mean _ _ err (mean_nonneg _) hAVG
  · rw [hs]
    exact streamDouble_popStd lo hi _ _ hlo0 hlo1 hSTD
  · intro n hn hmean hav
    rw [ha, hav, hmean]
    exact streamDouble_natCast n hn

theorem mean_10_20_30 : mean [10, 20, 30] = 20 := by
  norm_num [mean]

theorem popVariance_10_20_30 : popVariance [10, 20, 30] = 200 / 3 := by
  norm_num [popVariance, mean]

theorem sqrtDecimals_200_3 :
    sqrtDecimals 15 (200 / 3) = 8164965809277260 / 10 ^ 15 := by
  have hf : ⌊(200 / 3 : ℚ) * 100 ^ 15⌋₊ = 66666666666666666666666666666666 := by
    rw [Nat.floor_eq_iff (by norm_num)]
    constructor <;> norm_num
  have hs : Nat.sqrt 66666666666666666666666666666666 = 8164965809277260 := by
    symm
    rw [Nat.eq_sqrt]
    constructor <;> norm_num
  unfold sqrtDecimals
  rw [hf, hs]
  norm_num

theorem referenceAVG_10_20_30 : referenceSql.AVG [10, 20, 30] = 20 := by
  show toDouble (roundDecimals 4 (mean [10, 20, 30])) = 20
  rw [mean_10_20_30]
  have h1 : roundDecimals 4 ((20 : ℕ) : ℚ) = ((20 : ℕ) : ℚ) := roundDecimals_natCast 4 20
  have h2 : toDouble ((20 : ℕ) : ℚ) = ((20 : ℕ) : ℚ) := toDouble_natCast 20 (by norm_num)
  norm_num at h1 h2
  rw [h1, h2]

theorem referenceSTD_10_20_30 :
    (81649658 : ℚ) / 10000000 ≤ referenceSql.STD [10, 20, 30] ∧
    referenceSql.STD [10, 20, 30] ≤ 81649659 / 10000000 := by
  show (81649658 : ℚ) / 10000000 ≤ toDouble (sqrtDecimals 15 (popVariance [10, 20, 30])) ∧
    toDouble (sqrtDecimals 15 (popVariance [10, 20, 30])) ≤ 81649659 / 10000000
  rw [popVariance_10_20_30, sqrtDecimals_200_3]
  have h := toDouble_between (8164965809277260 / 10 ^ 15) (by norm_num)
  constructor
  · refine le_trans ?_ h.1
    norm_num
  · refine le_trans h.2 ?_
    norm_num

theorem referenceSTD_10_20_30_isPopStd :
    IsPopStd (1 / 1000000) (1 / 1000000) [10, 20, 30] (referenceSql.STD [10, 20, 30]) := by
  obtain ⟨h1, h2⟩ := referenceSTD_10_20_30
  have h0 : (0 : ℚ) ≤ referenceSql.STD [10, 20, 30] := le_trans (by norm_num) h1
  refine ⟨h0, ?_, ?_⟩
  · rw [popVariance_10_20_30]
    have : ((81649658 : ℚ) / 10000000) ^ 2 ≤ referenceSql.STD [10, 20, 30] ^ 2 :=
      pow_le_pow_left₀ (by norm_num) h1 2
    refine le_trans ?_ this
    norm_num
  · rw [popVariance_10_20_30]
    have : referenceSql.STD [10, 20, 30] ^ 2 ≤ ((81649659 : ℚ) / 10000000) ^ 2 :=
      pow_le_pow_left₀ h0 h2 2
    refine le_trans this ?_
    norm_num

theorem updateDB_aggregates_witness :
    ValidCall ⟨"a.com", 30, 3⟩ ∧
    hasRow ⟨[⟨"a.com", 1, 10⟩, ⟨"b.com", 1, 77⟩, ⟨"a.com", 2, 20⟩],
        [⟨"a.com", 15, 5, 2, 1, 2⟩, ⟨"b.com", 77, 0, 1, 1, 1⟩]⟩ "a.com" = true ∧
    ∃ db1 r,
      updateDB referenceSql ⟨[⟨"a.com", 1, 10⟩, ⟨"b.com", 1, 77⟩, ⟨"a.com", 2, 20⟩],
        [⟨"a.com", 15, 5, 2, 1, 2⟩, ⟨"b.com", 77, 0, 1, 1, 1⟩]⟩ "a.com" 30 3
        = Outcome.done db1 false ∧
      statsOf db1 "a.com" = some r ∧
      latenciesOf db1 "a.com" = latenciesOf ⟨[⟨"a.com", 1, 10⟩, ⟨"b.com", 1, 77⟩,
        ⟨"a.com", 2, 20⟩], [⟨"a.com", 15, 5, 2, 1, 2⟩, ⟨"b.com", 77, 0, 1, 1, 1⟩]⟩ "a.com" ++ [30] ∧
      r.avg_latency = streamDouble (referenceSql.AVG (latenciesOf db1 "a.com")) ∧
      r.std_latency = streamDouble (referenceSql.STD (latenciesOf db1 "a.com")) ∧
      |r.avg_latency - mean (latenciesOf db1 "a.com")|
        ≤ 0 + (mean (latenciesOf db1 "a.com") + 0) / 200000 ∧
      IsPopStd (1 / 1000000 + 1 / 200000) (1 / 1000000 + 1 / 200000 + 1 / 1000000 / 200000)
        (latenciesOf db1 "a.com") r.std_latency ∧
      (∀ n : ℕ, n < 10 ^ 6 → mean (latenciesOf db1 "a.com") = n →
        referenceSql.AVG (latenciesOf db1 "a.com") = mean (latenciesOf db1 "a.com") →
        r.avg_latency = n) :=
  ⟨by decide, by decide,
    updateDB_aggregates referenceSql ⟨[⟨"a.com", 1, 10⟩, ⟨"b.com", 1, 77⟩, ⟨"a.com", 2, 20⟩],
      [⟨"a.com", 15, 5, 2, 1, 2⟩, ⟨"b.com", 77, 0, 1, 1, 1⟩]⟩ "a.com" 30 3 0
      (1 / 1000000) (1 / 1000000) (by decide) (by decide)
      (by
        have hl : latenciesOf ⟨[⟨"a.com", 1, 10⟩, ⟨"b.com", 1, 77⟩, ⟨"a.com", 2, 20⟩],
            [⟨"a.com", 15, 5, 2, 1, 2⟩, ⟨"b.com", 77, 0, 1, 1, 1⟩]⟩ "a.com" ++ [30]
            = [10, 20, 30] := by decide
        rw [hl, referenceAVG_10_20_30, mean_10_20_30]
        simp)
      (by
        have hl : latenciesOf ⟨[⟨"a.com", 1, 10⟩, ⟨"b.com", 1, 77⟩, ⟨"a.com", 2, 20⟩],
            [⟨"a.com", 15, 5, 2, 1, 2⟩, ⟨"b.com", 77, 0, 1, 1, 1⟩]⟩ "a.com" ++ [30]
            = [10, 20, 30] := by decide
        rw [hl]
        exact referenceSTD_10_20_30_isPopStd)
      (by norm_num) (by norm_num)⟩

/-- The history `[10, 20, 30]` of the specification on the reference server: the row
stores the mean `20` and the standard deviation `8.16497`. -/
theorem stored_10_20_30 :
    ∃ db1 r,
      updateDB referenceSql ⟨[⟨"a.com", 1, 10⟩, ⟨"b.com", 1, 77⟩, ⟨"a.com", 2, 20⟩],
        [⟨"a.com", 15, 5, 2, 1, 2⟩, ⟨"b.com", 77, 0, 1, 1, 1⟩]⟩ "a.com" 30 3
        = Outcome.done db1 false ∧
      statsOf db1 "a.com" = some r ∧
      latenciesOf db1 "a.com" = [10, 20, 30] ∧
      r.avg_latency = 20 ∧ r.std_latency = 816497 / 100000 := by
  obtain ⟨db1, r, hup, hst, hl, ha, hs⟩ :=
    updateDB_stored referenceSql ⟨[⟨"a.com", 1, 10⟩, ⟨"b.com", 1, 77⟩, ⟨"a.com", 2, 20⟩],
        [⟨"a.com", 15, 5, 2, 1, 2⟩, ⟨"b.com", 77, 0, 1, 1, 1⟩]⟩ "a.com" 30 3 (by decide)
        (by decide)
  have hl1 : latenciesOf db1 "a.com" = [10, 20, 30] := by
    rw [hl]; decide
  refine ⟨db1, r, hup, hst, hl1, ?_, ?_⟩
  · rw [ha, hl1, referenceAVG_10_20_30]
    exact streamDouble_natCast 20 (by norm_num)
  · rw [hs, hl1]
    obtain ⟨h1, h2⟩ := referenceSTD_10_20_30
    exact streamDouble_near_std _ (le_trans (by norm_num) h1) (le_trans h2 (by norm_num))

theorem referenceAVG_1000001 : referenceSql.AVG [1000001] = 1000001 := by
  show toDouble (roundDecimals 4 (mean [1000001])) = 1000001
  have hm : mean [1000001] = ((1000001 : ℕ) : ℚ) := by norm_num [mean]
  rw [hm, roundDecimals_natCast, toDouble_natCast 1000001 (by norm_num)]
  norm_num

theorem referenceAVG_100_100_101 :
    (1003332 : ℚ) / 10000 ≤ referenceSql.AVG [100, 100, 101] ∧
    referenceSql.AVG [100, 100, 101] ≤ 1003334 / 10000 := by
  show (1003332 : ℚ) / 10000 ≤ toDouble (roundDecimals 4 (mean [100, 100, 101])) ∧
    toDouble (roundDecimals 4 (mean [100, 100, 101])) ≤ 1003334 / 10000
  have hm : mean [100, 100, 101] = 301 / 3 := by norm_num [mean]
  have hr : roundDecimals 4 (301 / 3) = 1003333 / 10000 := by
    unfold roundDecimals
    have hf : ⌊(301 / 3 : ℚ) * 10 ^ 4 + 1 / 2⌋ = 1003333 := by
      rw [Int.floor_eq_iff]
      constructor <;> norm_num
    rw [hf]
    norm_num
  rw [hm, hr]
  have h := toDouble_between (1003333 / 10000) (by norm_num)
  constructor
  · refine le_trans ?_ h.1
    norm_num
  · refine le_trans h.2 ?_
    norm_num

/-- C1, counterexample: when the first sample of `a.com` has latency 1000001, the mean
of the history is 1000001 and the `avg_latency` stored is 1000000; when the history
`[100, 100]` is extended by 101, the mean is 301/3 and the `avg_latency` stored is
100.333; and for the name `a"b`, with a row and two samples in the store, the call
warns and the stored `avg_latency` stays 0 while the mean of its samples is 15. -/
theorem avg_latency_counterexample :
    (∃ db1 r,
      updateDB referenceSql (init_stats referenceSql ⟨[], []⟩ ["a.com"]) "a.com" 1000001 1
        = Outcome.done db1 false ∧
      statsOf db1 "a.com" = some r ∧
      latenciesOf db1 "a.com" = [1000001] ∧
      mean (latenciesOf db1 "a.com") = 1000001 ∧
      r.avg_latency = 1000000 ∧
      r.avg_latency ≠ mean (latenciesOf db1 "a.com")) ∧
    (∃ db1 r,
      updateDB referenceSql
        ⟨[⟨"a.com", 1, 100⟩, ⟨"a.com", 2, 100⟩], [⟨"a.com", 100, 0, 2, 1, 2⟩]⟩ "a.com" 101 3
        = Outcome.done db1 false ∧
      statsOf db1 "a.com" = some r ∧
      latenciesOf db1 "a.com" = [100, 100, 101] ∧
      mean (latenciesOf db1 "a.com") = 301 / 3 ∧
      r.avg_latency = 100333 / 1000 ∧
      r.avg_latency ≠ mean (latenciesOf db1 "a.com")) ∧
    (∃ db1 r,
      updateDB referenceSql
        ⟨[⟨nameWithQuote, 1, 10⟩, ⟨nameWithQuote, 2, 20⟩], [zeroRow nameWithQuote]⟩
        nameWithQuote 30 3 = Outcome.done db1 true ∧
      statsOf db1 nameWithQuote = some r ∧
      latenciesOf db1 nameWithQuote = [10, 20] ∧
      mean (latenciesOf db1 nameWithQuote) = 15 ∧
      r.avg_latency = 0) := by
  refine ⟨?_, ?_, ?_⟩
  · obtain ⟨db1, r, hup, hst, hl, ha, _⟩ :=
      updateDB_stored referenceSql (init_stats referenceSql ⟨[], []⟩ ["a.com"]) "a.com"
        1000001 1 (by decide) (by decide)
    have hl1 : latenciesOf db1 "a.com" = [1000001] := by
      rw [hl]; decide
    have hm : mean (latenciesOf db1 "a.com") = 1000001 := by
      rw [hl1]; norm_num [mean]
    have ha1 : r.avg_latency = 1000000 := by
      rw [ha, hl1, referenceAVG_1000001]
      exact streamDouble_1000001
    exact ⟨db1, r, hup, hst, hl1, hm, ha1, by rw [ha1, hm]; norm_num⟩
  · obtain ⟨db1, r, hup, hst, hl, ha, _⟩ :=
      updateDB_stored referenceSql
        ⟨[⟨"a.com", 1, 100⟩, ⟨"a.com", 2, 100⟩], [⟨"a.com", 100, 0, 2, 1, 2⟩]⟩ "a.com" 101 3
        (by decide) (by decide)
    have hl1 : latenciesOf db1 "a.com" = [100, 100, 101] := by
      rw [hl]; decide
    have hm : mean (latenciesOf db1 "a.com") = 301 / 3 := by
      rw [hl1]; norm_num [mean]
    have ha1 : r.avg_latency = 100333 / 1000 := by
      rw [ha, hl1]
      obtain ⟨h1, h2⟩ := referenceAVG_100_100_101
      exact streamDouble_near_100_3333 _ h1 h2
    exact ⟨db1, r, hup, hst, hl1, hm, ha1, by rw [ha1, hm]; norm_num⟩
  · refine ⟨⟨[⟨nameWithQuote, 1, 10⟩, ⟨nameWithQuote, 2, 20⟩], [zeroRow nameWithQuote]⟩,
      zeroRow nameWithQuote, rfl, rfl, by decide, ?_, rfl⟩
    have : latenciesOf
        (⟨[⟨nameWithQuote, 1, 10⟩, ⟨nameWithQuote, 2, 20⟩], [zeroRow nameWithQuote]⟩ : Store)
        nameWithQuote = [10, 20] := by decide
    rw [this]
    norm_num [mean]

/-! ## The loader on a file of `rank,name` lines -/

theorem extractUntil_append (delim : Char) (w rest : List Char) (h : delim ∉ w) :
    extractUntil delim (w ++ delim :: rest) = (w, rest, true) := by
  induction w with
  | nil => simp [extractUntil]
  | cons c cs ih =>
    have hc : c ≠ delim := fun hcd => h (by simp [hcd])
    have hcs : delim ∉ cs := fun hm => h (List.mem_cons_of_mem _ hm)
    simp [extractUntil, hc, ih hcs]

theorem extractUntil_no_delim (delim : Char) (w : List Char) (h : delim ∉ w) :
    extractUntil delim w = (w, [], false) := by
  induction w with
  | nil => simp [extractUntil]
  | cons c cs ih =>
    have hc : c ≠ delim := fun hcd => h (by simp [hcd])
    have hcs : delim ∉ cs := fun hm => h (List.mem_cons_of_mem _ hm)
    simp [extractUntil, hc, ih hcs]

theorem getline_delim (delim : Char) (w rest : List Char) (str : String) (h : delim ∉ w) :
    getline ⟨w ++ delim :: rest, false, false⟩ str delim
      = (⟨rest, false, false⟩, String.mk w) := by
  simp [getline, IStream.good, extractUntil_append delim w rest h]

theorem getline_end (delim : Char) (w : List Char) (str : String) (h : delim ∉ w) :
    getline ⟨w, false, false⟩ str delim = (⟨[], true, w.isEmpty⟩, String.mk w) := by
  simp [getline, IStream.good, extractUntil_no_delim delim w h]

theorem readLoop_eof (k : Nat) (s : IStream) (rank : String) (acc : List String)
    (h : s.eofbit = true) : readLoop k s rank acc = (s, acc) := by
  cases k with
  | zero => rfl
  | succ k => simp [readLoop, h]

theorem readLoop_empty (k : Nat) (rank : String) (acc : List String) :
    (readLoop (k + 1) ⟨[], false, false⟩ rank acc).2 = acc ++ [""] := by
  have h1 : getline ⟨[], false, false⟩ rank ',' = (⟨[], true, true⟩, "") := by
    simp [getline, IStream.good, extractUntil]
  have h2 : getline ⟨[], true, true⟩ "" '\n' = (⟨[], true, true⟩, "") := by
    simp [getline, IStream.good]
  simp only [readLoop, Bool.false_eq_true, if_false, h1, h2]
  rw [readLoop_eof _ _ _ _ rfl]

/-- The slots the loop fills on a file of well-formed lines: the names of the first
`k` lines, and one more slot holding the empty string when the loop is asked for
more than the file has and the file is empty or ends in a line break. -/
theorem readLoop_lines (finalNewline : Bool) :
    ∀ (k : Nat) (entries : List (List Char × List Char)) (rank : String) (acc : List String),
      (∀ e ∈ entries, WellFormedEntry e) →
      (readLoop k ⟨renderFile entries finalNewline, false, false⟩ rank acc).2
        = acc ++ namesOf (entries.take k) ++
          (if entries.length < k ∧ (finalNewline = true ∨ entries = []) then [""] else []) := by
  intro k
  induction k with
  | zero => intro entries rank acc _; simp [readLoop, namesOf]
  | succ k ih =>
    intro entries rank acc hwf
    cases entries with
    | nil =>
      have : renderFile [] finalNewline = [] := rfl
      rw [this, readLoop_empty]
      simp [namesOf]
    | cons e es =>
      obtain ⟨h1, _, h3⟩ := hwf e (List.mem_cons_self _ _)
      have hwf1 : ∀ e1 ∈ es, WellFormedEntry e1 := fun e1 he1 => hwf e1 (List.mem_cons_of_mem _ he1)
      cases es with
      | nil =>
        cases finalNewline with
        | true =>
          have hr : renderFile [e] true = e.1 ++ ',' :: (e.2 ++ '\n' :: []) := rfl
          rw [hr]
          simp only [readLoop, Bool.false_eq_true, if_false, getline_delim ',' _ _ _ h1,
            getline_delim '\n' _ _ _ h3]
          have := ih [] (String.mk e.1) (acc ++ [String.mk e.2]) (by simp)
          have hr0 : renderFile [] true = [] := rfl
          rw [hr0] at this
          rw [this]
          simp [namesOf]
        | false =>
          have hr : renderFile [e] false = e.1 ++ ',' :: e.2 := by
            simp [renderFile]
          rw [hr]
          simp only [readLoop, Bool.false_eq_true, if_false, getline_delim ',' _ _ _ h1,
            getline_end '\n' _ _ h3]
          rw [readLoop_eof _ _ _ _ rfl]
          simp [namesOf]
      | cons e1 es1 =>
        have hr : renderFile (e :: e1 :: es1) finalNewline
            = e.1 ++ ',' :: (e.2 ++ '\n' :: renderFile (e1 :: es1) finalNewline) := rfl
        rw [hr]
        simp only [readLoop, Bool.false_eq_true, if_false, getline_delim ',' _ _ _ h1,
          getline_delim '\n' _ _ _ h3]
        rw [ih (e1 :: es1) (String.mk e.1) (acc ++ [String.mk e.2]) hwf1]
        simp [namesOf]

theorem effectiveTopN_of_pos (K : Nat) (hK : 1 ≤ K) : effectiveTopN (K : Int) = K := by
  unfold effectiveTopN
  have : ¬ (K : Int) ≤ 0 := by omega
  simp [this]

theorem effectiveTopN_pos (topN : Int) : 1 ≤ effectiveTopN topN := by
  unfold effectiveTopN
  split_ifs with h
  · norm_num
  · omega

/-- The loader on a file of well-formed lines, for any requested count `K ≥ 1`. -/
theorem loadDomains_lines (K : Nat) (entries : List (List Char × List Char))
    (finalNewline : Bool) (hK : 1 ≤ K) (hwf : ∀ e ∈ entries, WellFormedEntry e) :
    (loadDomains (K : Int) (renderFile entries finalNewline)).domains
      = namesOf (entries.take K) ++
        (if entries.length < K ∧ (finalNewline = true ∨ entries = []) then [""] else []) := by
  unfold loadDomains
  simp only [effectiveTopN_of_pos K hK]
  rw [readLoop_lines finalNewline K entries "" [] hwf]
  simp

theorem loadDomains_fields (topN : Int) (file : List Char) :
    (loadDomains topN file).domainsNum = (loadDomains topN file).domains.length ∧
    (loadDomains topN file).warning
      = decide ((loadDomains topN file).domains.length < effectiveTopN topN) ∧
    (loadDomains topN file).exits = decide ((loadDomains topN file).domains.length = 0) :=
  ⟨rfl, rfl, rfl⟩

/-- C6: for a requested count `K ≥ 1` and a file of well-formed `rank,name` lines
with at least `K` lines (the last one with or without a line break), the loader
returns exactly `K` entries, the names of the first `K` lines in order, without
warning and without exit. -/
theorem loadDomains_first_K (K : Nat) (entries : List (List Char × List Char))
    (finalNewline : Bool) (hK : 1 ≤ K) (hM : K ≤ entries.length)
    (hwf : ∀ e ∈ entries, WellFormedEntry e) :
    loadDomains (K : Int) (renderFile entries finalNewline)
      = { domainsNum := K, domains := (entries.take K).map (fun e => String.mk e.2),
          warning := false, exits := false } := by
  have hd := loadDomains_lines K entries finalNewline hK hwf
  have hnot : ¬ (entries.length < K ∧ (finalNewline = true ∨ entries = [])) :=
    fun h => absurd h.1 (by omega)
  rw [if_neg hnot, List.append_nil] at hd
  have hlen : (namesOf (entries.take K)).length = K := by
    simp [namesOf, List.length_take, hM]
  obtain ⟨h1, h2, h3⟩ := loadDomains_fields (K : Int) (renderFile entries finalNewline)
  rw [hd, hlen] at h1 h3
  rw [hd, hlen, effectiveTopN_of_pos K hK] at h2
  have h2f : (loadDomains (K : Int) (renderFile entries finalNewline)).warning = false := by
    rw [h2]; simp
  have h3f : (loadDomains (K : Int) (renderFile entries finalNewline)).exits = false := by
    rw [h3]; simp; omega
  cases hres : loadDomains (K : Int) (renderFile entries finalNewline) with
  | mk n dl w x =>
    rw [hres] at h1 hd h2f h3f
    simp only at h1 hd h2f h3f
    subst h1 hd h2f h3f
    rfl

theorem loadDomains_first_K_witness :
    (1 ≤ 2 ∧ 2 ≤ [("1".toList, "a.com".toList), ("2".toList, "b.com".toList),
        ("3".toList, "c.com".toList)].length) ∧
    loadDomains ((2 : Nat) : Int)
        (renderFile [("1".toList, "a.com".toList), ("2".toList, "b.com".toList),
          ("3".toList, "c.com".toList)] true)
      = { domainsNum := 2,
          domains := ([("1".toList, "a.com".toList), ("2".toList, "b.com".toList),
            ("3".toList, "c.com".toList)].take 2).map (fun e => String.mk e.2),
          warning := false, exits := false } :=
  ⟨by decide,
    loadDomains_first_K 2 [("1".toList, "a.com".toList), ("2".toList, "b.com".toList),
      ("3".toList, "c.com".toList)] true (by decide) (by decide)
      (by simp [WellFormedEntry])⟩

/-- A file with fewer than `K` lines that ends in a line break (or is empty): one slot
more than the file has lines is filled, the extra one with the empty string. -/
theorem loadDomains_short_with_newline (K : Nat) (entries : List (List Char × List Char))
    (hK : 1 ≤ K) (hM : entries.length < K) (hwf : ∀ e ∈ entries, WellFormedEntry e) :
    (loadDomains (K : Int) (renderFile entries true)).domains = namesOf entries ++ [""] := by
  rw [loadDomains_lines K entries true hK hwf, List.take_of_length_le (by omega)]
  simp [hM]

/-- A non-empty file with fewer than `K` lines whose last line has no line break:
exactly the lines of the file are returned. -/
theorem loadDomains_short_without_newline (K : Nat) (entries : List (List Char × List Char))
    (hK : 1 ≤ K) (hM : entries.length < K) (hne : entries ≠ [])
    (hwf : ∀ e ∈ entries, WellFormedEntry e) :
    (loadDomains (K : Int) (renderFile entries false)).domains = namesOf entries := by
  rw [loadDomains_lines K entries false hK hwf, List.take_of_length_le (by omega)]
  simp [hne]

theorem readLoop_length_le (k : Nat) :
    ∀ (s : IStream) (rank : String) (acc : List String),
      acc.length ≤ (readLoop k s rank acc).2.length := by
  induction k with
  | zero => intro s rank acc; simp [readLoop]
  | succ k ih =>
    intro s rank acc
    simp only [readLoop]
    split_ifs
    · exact le_refl _
    · refine le_trans ?_ (ih _ _ _)
      simp

/-- The loader never takes the exit `if (domainsNum==0) exit(1)`: the loop body runs
at least once, whatever the file holds. -/
theorem loadDomains_never_exits (topN : Int) (file : List Char) :
    1 ≤ (loadDomains topN file).domainsNum ∧ (loadDomains topN file).exits = false := by
  have hpos := effectiveTopN_pos topN
  have key : 1 ≤ (readLoop (effectiveTopN topN) ⟨file, false, false⟩ "" []).2.length := by
    obtain ⟨n, hn⟩ : ∃ n, effectiveTopN topN = n + 1 := ⟨effectiveTopN topN - 1, by omega⟩
    rw [hn]
    simp only [readLoop, Bool.false_eq_true, if_false]
    refine le_trans ?_ (readLoop_length_le _ _ _ _)
    simp
  refine ⟨key, ?_⟩
  show decide ((readLoop (effectiveTopN topN) ⟨file, false, false⟩ "" []).2.length = 0) = false
  simp only [decide_eq_false_iff_not]
  omega

/-- C7: on the empty file the loader reports one domain, the empty string, and does
not exit; on a one-line file ending in a line break and a requested count of two it
reports two domains, the second one empty, without the warning; on a two-line file
and a requested count of ten it reports three; and whatever the requested count and
the file, at least one domain is reported and the exit on `domainsNum==0` is not
taken. -/
theorem loadDomains_short_input :
    loadDomains 10 [] = ⟨1, [""], true, false⟩ ∧
    loadDomains 2 "1,a.com\n".toList = ⟨2, ["a.com", ""], false, false⟩ ∧
    loadDomains 10 "1,a.com\n2,b.com\n".toList = ⟨3, ["a.com", "b.com", ""], true, false⟩ ∧
    (∀ (topN : Int) (file : List Char),
      1 ≤ (loadDomains topN file).domainsNum ∧ (loadDomains topN file).exits = false) := by
  refine ⟨by decide, by decide, by decide, ?_⟩
  intro topN file
  exact loadDomains_never_exits topN file

/-! ## The query name -/

theorem charset_length : charset.length = 62 := by decide

theorem appendSub_charset (name : List Char) (r : Nat) :
    ∃ c, c ∈ charset ∧ appendSub name charset (r % charset.length) 1 = some (name ++ [c]) := by
  have hlt : r % charset.length < charset.length :=
    Nat.mod_lt _ (by rw [charset_length]; norm_num)
  have hlen : ((charset.drop (r % charset.length)).take 1).length = 1 := by
    rw [List.length_take, List.length_drop]
    omega
  obtain ⟨c, hc⟩ := List.length_eq_one.1 hlen
  refine ⟨c, ?_, ?_⟩
  · have hm : c ∈ (charset.drop (r % charset.length)).take 1 := by rw [hc]; simp
    exact List.mem_of_mem_drop (List.mem_of_mem_take hm)
  · unfold appendSub
    rw [if_neg (by omega), hc]

theorem labelLoop_spec (rand : Nat → Nat) :
    ∀ (k call : Nat) (name : List Char),
      ∃ label, labelLoop rand k call name = some (name ++ label) ∧ label.length = k ∧
        ∀ c ∈ label, c ∈ charset := by
  intro k
  induction k with
  | zero => intro call name; exact ⟨[], by simp [labelLoop], rfl, by simp⟩
  | succ k ih =>
    intro call name
    obtain ⟨c, hc, happ⟩ := appendSub_charset name (rand call)
    obtain ⟨label, hl, hlen, hmem⟩ := ih (call + 1) (name ++ [c])
    refine ⟨c :: label, ?_, by simp [hlen], ?_⟩
    · simp only [labelLoop, happ]
      rw [hl]
      simp
    · intro x hx
      rcases List.mem_cons.1 hx with h | h
      · rw [h]; exact hc
      · exact hmem x h

/-- C8: whatever values `rand()` returns, `probe` builds a label of `6 + rand() % 7`
characters, so between 6 and 12, every one of them taken from the 62 characters
a-z, A-Z, 0-9 at an index below 62, and the name queried is the label, a dot and
the domain. -/
theorem queryName_spec (rand : Nat → Nat) (domain : String) :
    ∃ label : List Char,
      randomLabel rand = some label ∧
      queryName rand domain = some (String.mk label ++ "." ++ domain) ∧
      label.length = 6 + rand 0 % 7 ∧ 6 ≤ label.length ∧ label.length ≤ 12 ∧
      (∀ c ∈ label, c ∈ charset) ∧
      (∀ c ∈ label, c.isAlphanum = true) ∧
      charset.length = 62 ∧ charset.Nodup ∧
      (∀ call : Nat, rand call % charset.length < charset.length) := by
  obtain ⟨label, hl, hlen, hmem⟩ := labelLoop_spec rand (6 + rand 0 % 7) 1 []
  rw [List.nil_append] at hl
  have hcs : ∀ c ∈ charset, c.isAlphanum = true := by decide
  refine ⟨label, hl, ?_, hlen, by omega, ?_, hmem, fun c hc => hcs c (hmem c hc),
    charset_length, by decide, fun call => Nat.mod_lt _ (by rw [charset_length]; norm_num)⟩
  · unfold queryName
    unfold randomLabel at *
    rw [hl]
    simp only [Option.some.injEq]
    apply String.ext
    simp [String.data_append]
  · have := Nat.mod_lt (rand 0) (show 0 < 7 by norm_num)
    omega

/-! ## The probing rounds -/

theorem loopGuard_unset (probe_counter : Int) : loopGuard (-1) probe_counter = true := by
  simp [loopGuard]

/-- With `count = -1` (the value when `-c` is not given) the loop is still running
after any number of rounds. -/
theorem probingLoop_unset (probeOk : Int → String → Bool) (domains : List String) :
    ∀ (fuel : Nat) (probe_counter : Int) (attempts : List (String × Bool)),
      (probingLoop probeOk (-1) domains fuel probe_counter attempts).1 = probe_counter + fuel ∧
      (probingLoop probeOk (-1) domains fuel probe_counter attempts).2.2 = true := by
  intro fuel
  induction fuel with
  | zero => intro pc att; simp [probingLoop, loopGuard_unset]
  | succ fuel ih =>
    intro pc att
    simp only [probingLoop, loopGuard_unset, if_true]
    obtain ⟨h1, h2⟩ := ih (pc + 1) (att ++ probeRound probeOk pc domains)
    rw [h1, h2]
    exact ⟨by push_cast; ring, rfl⟩

/-- With `count = c ≥ 0` the loop makes exactly `c` rounds and stops, and every round
attempts every domain of the list in order, whatever the probes return. -/
theorem probingLoop_count (probeOk : Int → String → Bool) (domains : List String) (c : Nat) :
    ∀ (fuel todo : Nat) (probe_counter : Int) (attempts : List (String × Bool)),
      probe_counter + todo = c → 0 ≤ probe_counter → todo ≤ fuel →
      (probingLoop probeOk (c : Int) domains fuel probe_counter attempts).1 = c ∧
      (probingLoop probeOk (c : Int) domains fuel probe_counter attempts).2.2 = false ∧
      ((probingLoop probeOk (c : Int) domains fuel probe_counter attempts).2.1).map Prod.fst
        = attempts.map Prod.fst ++ (List.replicate todo domains).flatten := by
  intro fuel
  induction fuel with
  | zero =>
    intro todo pc att h1 h2 h3
    have ht : todo = 0 := by omega
    subst ht
    have hg : loopGuard (c : Int) pc = false := by
      simp only [loopGuard, Bool.or_eq_false_iff, decide_eq_false_iff_not]
      constructor <;> omega
    have he : probingLoop probeOk (c : Int) domains 0 pc att = (pc, att, false) := by
      simp only [probingLoop, hg]
    rw [he]
    exact ⟨by simpa using h1, rfl, by simp⟩
  | succ fuel ih =>
    intro todo pc att h1 h2 h3
    cases todo with
    | zero =>
      have hg : loopGuard (c : Int) pc = false := by
        simp only [loopGuard, Bool.or_eq_false_iff, decide_eq_false_iff_not]
        constructor <;> omega
      have he : probingLoop probeOk (c : Int) domains (fuel + 1) pc att = (pc, att, false) := by
        simp only [probingLoop, hg, Bool.false_eq_true, if_false]
      rw [he]
      exact ⟨by simpa using h1, rfl, by simp⟩
    | succ todo =>
      have hg : loopGuard (c : Int) pc = true := by
        simp only [loopGuard, Bool.or_eq_true, decide_eq_true_eq]
        right; push_cast at h1; omega
      have he : probingLoop probeOk (c : Int) domains (fuel + 1) pc att
          = probingLoop probeOk (c : Int) domains fuel (pc + 1)
              (att ++ probeRound probeOk pc domains) := by
        simp only [probingLoop, hg, if_true]
      rw [he]
      obtain ⟨r1, r2, r3⟩ := ih todo (pc + 1) (att ++ probeRound probeOk pc domains)
        (by push_cast at h1 ⊢; omega) (by omega) (by omega)
      refine ⟨r1, r2, ?_⟩
      rw [r3]
      simp [probeRound, List.replicate_succ, Function.comp_def]

/-- C9: with `-c -2` the start-up message says "for ever", the guard of the round
loop is false at once, and the loop ends without a probe; with `-c` absent the
guard holds for every counter, and with `-c 1` and two domains one round of two
probe attempts is made, both probes failing. -/
theorem rounds_negative_count :
    parsedCount (some (-2)) = -2 ∧ announcesForEver (-2) = true ∧ loopGuard (-2) 0 = false ∧
    (∀ (probeOk : Int → String → Bool) (domains : List String) (fuel : Nat),
      probingLoop probeOk (-2) domains fuel 0 [] = (0, [], false)) ∧
    (∀ probe_counter : Int, loopGuard (parsedCount none) probe_counter = true) ∧
    probingLoop (fun _ _ => false) (parsedCount (some 1)) ["a.com", "b.com"] 5 0 []
      = (1, [("a.com", false), ("b.com", false)], false) := by
  refine ⟨rfl, by decide, by decide, ?_, fun pc => loopGuard_unset pc, by decide⟩
  intro probeOk domains fuel
  have hg : loopGuard (-2) 0 = false := by decide
  cases fuel with
  | zero => simp [probingLoop, hg]
  | succ fuel => simp [probingLoop, hg]

end DnsPing
